import Mathlib

/-!
Verification development for the tau-bench repository examples and adapter:
the airline `CancelReservation` tool, the FastWorkflow adapter's diff
collection (`_collect_diffs`), ground-truth replay (`_simulate_gt_data`)
and the bounded interaction loop of `solve`.

Python JSON-like values are embedded as `JValue`; dictionaries are
association lists in insertion order (the order Python dictionaries keep):
assignment to an existing key keeps its position, assignment to a fresh key
appends at the end, exactly as CPython dictionaries behave.
-/

namespace TauBench

/-- Embedding of the Python values the airline data set is made of:
`None`, `bool`, `int`, `str`, `list`, `dict` (insertion-ordered). -/
inductive JValue where
  | null : JValue
  | bool (b : Bool) : JValue
  | int (n : Int) : JValue
  | str (s : String) : JValue
  | list (xs : List JValue) : JValue
  | obj (fields : List (String × JValue)) : JValue

/-- `d[k]` lookup on a Python dictionary (keys are unique in a real
dictionary, so the first binding is the only one). -/
def getKey (fs : List (String × JValue)) (k : String) : Option JValue :=
  match fs with
  | [] => none
  | (k', v) :: rest => if k' = k then some v else getKey rest k

/-- `d[k] = v` assignment on a Python dictionary: an existing key keeps its
position in insertion order, a fresh key is appended at the end. -/
def setKey (fs : List (String × JValue)) (k : String) (v : JValue) :
    List (String × JValue) :=
  match fs with
  | [] => [(k, v)]
  | (k', v') :: rest => if k' = k then (k, v) :: rest else (k', v') :: setKey rest k v

theorem getKey_setKey_self (fs : List (String × JValue)) (k : String) (v : JValue) :
    getKey (setKey fs k v) k = some v := by
  induction fs with
  | nil => simp [getKey, setKey]
  | cons p rest ih =>
    obtain ⟨k', v'⟩ := p
    by_cases h : k' = k
    · simp [getKey, setKey, h]
    · simp [getKey, setKey, h, ih]

theorem getKey_setKey_ne (fs : List (String × JValue)) (k k' : String) (v : JValue)
    (h : k' ≠ k) : getKey (setKey fs k v) k' = getKey fs k' := by
  induction fs with
  | nil => simp [getKey, setKey, Ne.symm h]
  | cons p rest ih =>
    obtain ⟨k₀, v₀⟩ := p
    by_cases hk : k₀ = k
    · subst hk
      simp [getKey, setKey, Ne.symm h]
    · by_cases hk' : k₀ = k'
      · subst hk'
        simp [getKey, setKey, hk]
      · simp [getKey, setKey, hk, hk', ih]

/-! ## `json.dumps` (default options: `ensure_ascii=True`, separators `", "` / `": "`) -/

def hexDigit (n : Nat) : Char :=
  if n < 10 then Char.ofNat (48 + n) else Char.ofNat (87 + n)

def hex4 (n : Nat) : String :=
  String.mk [hexDigit (n / 4096 % 16), hexDigit (n / 256 % 16),
    hexDigit (n / 16 % 16), hexDigit (n % 16)]

/-- One character of a JSON string literal, as Python's `json.dumps`
renders it with `ensure_ascii=True` (code points above `0xFFFF`, which
Python renders as surrogate pairs, do not occur in the airline data). -/
def jsonEscapeChar (c : Char) : String :=
  if c = '"' then "\\\""
  else if c = '\\' then "\\\\"
  else if c = '\n' then "\\n"
  else if c = '\t' then "\\t"
  else if c = '\r' then "\\r"
  else if c.toNat = 8 then "\\b"
  else if c.toNat = 12 then "\\f"
  else if c.toNat < 32 || 126 < c.toNat then "\\u" ++ hex4 c.toNat
  else String.singleton c

def jsonEscape (s : String) : String :=
  String.join (s.toList.map jsonEscapeChar)

mutual

/-- Python's `json.dumps` on an embedded value, with the default
separators `", "` and `": "` used by `cancel_reservation.py`. -/
def jsonDumps : JValue → String
  | .null => "null"
  | .bool b => if b then "true" else "false"
  | .int n => toString n
  | .str s => "\"" ++ jsonEscape s ++ "\""
  | .list xs => "[" ++ jsonDumpsList xs ++ "]"
  | .obj fs => "\x7b" ++ jsonDumpsFields fs ++ "\x7d"

def jsonDumpsList : List JValue → String
  | [] => ""
  | [x] => jsonDumps x
  | x :: xs => jsonDumps x ++ ", " ++ jsonDumpsList xs

def jsonDumpsFields : List (String × JValue) → String
  | [] => ""
  | [(k, v)] => "\"" ++ jsonEscape k ++ "\": " ++ jsonDumps v
  | (k, v) :: fs => "\"" ++ jsonEscape k ++ "\": " ++ jsonDumps v ++ ", " ++ jsonDumpsFields fs

end

/-! ## The `CancelReservation` tool
(`examples/airline_workflow/tools/cancel_reservation.py`)

`invoke` mutates the dictionary passed in; the embedding passes state
explicitly and returns `(returned string, data afterwards)`.  `none`
models a raised Python exception (`KeyError` / `TypeError` on malformed
data); on the error-string path the data is returned untouched. -/

/-- `-payment["amount"]`: unary minus on a Python value.  Defined for
`int` and `bool` (Python's `-True == -1`); anything else raises. -/
def negAmount : JValue → Option JValue
  | .int n => some (.int (-n))
  | .bool b => some (.int (-(if b then (1 : Int) else 0)))
  | _ => none

/-- One element of the `refunds` list comprehension:
`{"payment_id": payment["payment_id"], "amount": -payment["amount"]}`. -/
def mkRefund (payment : JValue) : Option JValue :=
  match payment with
  | .obj fs =>
    match getKey fs "payment_id", getKey fs "amount" with
    | some pid, some amt =>
      match negAmount amt with
      | some na => some (.obj [("payment_id", pid), ("amount", na)])
      | none => none
    | _, _ => none
  | _ => none

/-- The whole `refunds` list comprehension over `reservation["payment_history"]`:
`none` as soon as one element raises. -/
def refundsOf : List JValue → Option (List JValue)
  | [] => some []
  | p :: ps =>
    match mkRefund p, refundsOf ps with
    | some r, some rs => some (r :: rs)
    | _, _ => none

namespace CancelReservation

/-- `CancelReservation.invoke(data, reservation_id)`: look the reservation
up; if absent return the fixed error string with the data untouched;
otherwise build the refund list, extend `payment_history` with it, set
`status` to `"cancelled"` and return `json.dumps(reservation)` together
with the mutated data. -/
def invoke (data : JValue) (reservation_id : String) : Option (String × JValue) :=
  match data with
  | .obj dataFields =>
    match getKey dataFields "reservations" with
    | some (.obj reservations) =>
      match getKey reservations reservation_id with
      | none => some ("Error: reservation not found", data)
      | some (.obj resFields) =>
        match getKey resFields "payment_history" with
        | some (.list payments) =>
          match refundsOf payments with
          | some refunds =>
            let resFields2 :=
              setKey (setKey resFields "payment_history" (.list (payments ++ refunds)))
                "status" (.str "cancelled")
            let data2 :=
              JValue.obj (setKey dataFields "reservations"
                (.obj (setKey reservations reservation_id (.obj resFields2))))
            some (jsonDumps (.obj resFields2), data2)
          | none => none
        | _ => none
      | some _ => none
    | _ => none
  | _ => none

end CancelReservation

/-! ## Projections used to state properties of the mutated data set -/

def reservationAt (data : JValue) (rid : String) : Option JValue :=
  match data with
  | .obj df =>
    match getKey df "reservations" with
    | some (.obj rm) => getKey rm rid
    | _ => none
  | _ => none

def historyAt (data : JValue) (rid : String) : Option (List JValue) :=
  match reservationAt data rid with
  | some (.obj rf) =>
    match getKey rf "payment_history" with
    | some (.list h) => some h
    | _ => none
  | _ => none

def statusAt (data : JValue) (rid : String) : Option JValue :=
  match reservationAt data rid with
  | some (.obj rf) => getKey rf "status"
  | _ => none

/-- The numeric value of a Python `int`-or-`bool` amount (`0` as a
placeholder on values unary minus would reject). -/
def amountVal : JValue → Int
  | .int n => n
  | .bool b => if b then 1 else 0
  | _ => 0

/-- The amount carried by one payment-history entry. -/
def paymentAmt : JValue → Int
  | .obj fs =>
    match getKey fs "amount" with
    | some a => amountVal a
    | none => 0
  | _ => 0

/-- The `payment_id` carried by one payment-history entry. -/
def paymentIdOf : JValue → Option JValue
  | .obj fs => getKey fs "payment_id"
  | _ => none

/-! ## Lemmas about the refund construction -/

theorem mkRefund_spec (p r : JValue) (h : mkRefund p = some r) :
    paymentIdOf r = paymentIdOf p ∧ paymentAmt r = -paymentAmt p ∧
      ∃ pid m, r = .obj [("payment_id", pid), ("amount", .int m)] := by
  match p with
  | .null => simp [mkRefund] at h
  | .bool _ => simp [mkRefund] at h
  | .int _ => simp [mkRefund] at h
  | .str _ => simp [mkRefund] at h
  | .list _ => simp [mkRefund] at h
  | .obj fs =>
    simp only [mkRefund] at h
    cases hpid : getKey fs "payment_id" with
    | none => rw [hpid] at h; simp at h
    | some pid =>
      cases hamt : getKey fs "amount" with
      | none => rw [hpid, hamt] at h; simp at h
      | some amt =>
        rw [hpid, hamt] at h
        match amt, h with
        | .int n, h =>
          simp only [negAmount] at h
          obtain rfl := (Option.some_inj.mp h).symm
          refine ⟨?_, ?_, pid, -n, rfl⟩
          · simp [paymentIdOf, getKey, hpid]
          · simp [paymentAmt, getKey, hamt, amountVal]
        | .bool b, h =>
          simp only [negAmount] at h
          obtain rfl := (Option.some_inj.mp h).symm
          refine ⟨?_, ?_, pid, -(if b then (1 : Int) else 0), rfl⟩
          · simp [paymentIdOf, getKey, hpid]
          · simp [paymentAmt, getKey, hamt, amountVal]

theorem mkRefund_refund (pid : JValue) (m : Int) :
    mkRefund (.obj [("payment_id", pid), ("amount", .int m)])
      = some (.obj [("payment_id", pid), ("amount", .int (-m))]) := by
  simp [mkRefund, getKey, negAmount]

theorem refundsOf_forall₂ (ps rs : List JValue) (h : refundsOf ps = some rs) :
    List.Forall₂ (fun p r => paymentIdOf r = paymentIdOf p ∧ paymentAmt r = -paymentAmt p)
      ps rs := by
  induction ps generalizing rs with
  | nil =>
    simp only [refundsOf, Option.some_inj] at h
    subst h; exact .nil
  | cons p ps ih =>
    simp only [refundsOf] at h
    cases hp : mkRefund p with
    | none => rw [hp] at h; simp at h
    | some r =>
      cases hps : refundsOf ps with
      | none => rw [hp, hps] at h; simp at h
      | some rs' =>
        rw [hp, hps] at h
        simp only [Option.some_inj] at h
        subst h
        exact .cons ⟨(mkRefund_spec p r hp).1, (mkRefund_spec p r hp).2.1⟩ (ih rs' hps)

theorem refundsOf_length (ps rs : List JValue) (h : refundsOf ps = some rs) :
    rs.length = ps.length :=
  ((refundsOf_forall₂ ps rs h).length_eq).symm

theorem refundsOf_map_amt (ps rs : List JValue) (h : refundsOf ps = some rs) :
    rs.map paymentAmt = ps.map (fun p => -paymentAmt p) := by
  induction ps generalizing rs with
  | nil =>
    simp only [refundsOf, Option.some_inj] at h
    subst h; rfl
  | cons p ps ih =>
    simp only [refundsOf] at h
    cases hp : mkRefund p with
    | none => rw [hp] at h; simp at h
    | some r =>
      cases hps : refundsOf ps with
      | none => rw [hp, hps] at h; simp at h
      | some rs' =>
        rw [hp, hps] at h
        simp only [Option.some_inj] at h
        subst h
        simp [List.map_cons, (mkRefund_spec p r hp).2.1, ih rs' hps]

theorem refundsOf_sum_zero (ps rs : List JValue) (h : refundsOf ps = some rs) :
    (((ps ++ rs).map paymentAmt).sum : Int) = 0 := by
  have aux : ∀ l : List JValue,
      ((l.map fun p => -paymentAmt p).sum : Int) = -((l.map paymentAmt).sum) := by
    intro l
    induction l with
    | nil => simp
    | cons x xs ih => simp only [List.map_cons, List.sum_cons, ih]; omega
  rw [List.map_append, List.sum_append, refundsOf_map_amt ps rs h, aux]
  omega

theorem refundsOf_shape (ps rs : List JValue) (h : refundsOf ps = some rs) :
    ∀ r ∈ rs, ∃ pid m, r = JValue.obj [("payment_id", pid), ("amount", .int m)] := by
  induction ps generalizing rs with
  | nil =>
    simp only [refundsOf, Option.some_inj] at h
    subst h; simp
  | cons p ps ih =>
    simp only [refundsOf] at h
    cases hp : mkRefund p with
    | none => rw [hp] at h; simp at h
    | some r =>
      cases hps : refundsOf ps with
      | none => rw [hp, hps] at h; simp at h
      | some rs' =>
        rw [hp, hps] at h
        simp only [Option.some_inj] at h
        subst h
        intro x hx
        rcases List.mem_cons.mp hx with hx | hx
        · subst hx; exact (mkRefund_spec p x hp).2.2
        · exact ih rs' hps x hx

theorem refundsOf_append (xs ys as bs : List JValue)
    (hx : refundsOf xs = some as) (hy : refundsOf ys = some bs) :
    refundsOf (xs ++ ys) = some (as ++ bs) := by
  induction xs generalizing as with
  | nil =>
    simp only [refundsOf, Option.some_inj] at hx
    subst hx; simpa using hy
  | cons p ps ih =>
    simp only [refundsOf] at hx
    cases hp : mkRefund p with
    | none => rw [hp] at hx; simp at hx
    | some r =>
      cases hps : refundsOf ps with
      | none => rw [hp, hps] at hx; simp at hx
      | some rs' =>
        rw [hp, hps] at hx
        simp only [Option.some_inj] at hx
        subst hx
        simp only [List.cons_append, refundsOf, hp, List.append_eq, ih rs' hps]

theorem refundsOf_of_shapes (rs : List JValue)
    (h : ∀ r ∈ rs, ∃ pid m, r = JValue.obj [("payment_id", pid), ("amount", .int m)]) :
    ∃ rs2, refundsOf rs = some rs2 := by
  induction rs with
  | nil => exact ⟨[], rfl⟩
  | cons r rs ih =>
    obtain ⟨pid, m, rfl⟩ := h r (by simp)
    obtain ⟨rs2, hrs2⟩ := ih (fun x hx => h x (by simp [hx]))
    exact ⟨JValue.obj [("payment_id", pid), ("amount", .int (-m))] :: rs2,
      by simp only [refundsOf, mkRefund_refund, hrs2]⟩

/-! ## Characterization of `CancelReservation.invoke` on an existing reservation -/

/-- The reservation's fields after cancellation: `payment_history` extended
with the refunds, then `status` set to `"cancelled"`. -/
def cancelledFields (resFields : List (String × JValue)) (payments refunds : List JValue) :
    List (String × JValue) :=
  setKey (setKey resFields "payment_history" (.list (payments ++ refunds)))
    "status" (.str "cancelled")

theorem invoke_existing (dataFields reservations resFields : List (String × JValue))
    (payments refunds : List JValue) (rid : String)
    (hres : getKey dataFields "reservations" = some (.obj reservations))
    (hr : getKey reservations rid = some (.obj resFields))
    (hph : getKey resFields "payment_history" = some (.list payments))
    (hrf : refundsOf payments = some refunds) :
    CancelReservation.invoke (.obj dataFields) rid =
      some (jsonDumps (.obj (cancelledFields resFields payments refunds)),
        .obj (setKey dataFields "reservations"
          (.obj (setKey reservations rid
            (.obj (cancelledFields resFields payments refunds)))))) := by
  simp only [CancelReservation.invoke, hres, hr, hph, hrf, cancelledFields]

theorem getKey_cancelledFields_history (resFields : List (String × JValue))
    (payments refunds : List JValue) :
    getKey (cancelledFields resFields payments refunds) "payment_history"
      = some (.list (payments ++ refunds)) := by
  rw [cancelledFields, getKey_setKey_ne _ _ _ _ (by decide), getKey_setKey_self]

theorem getKey_cancelledFields_status (resFields : List (String × JValue))
    (payments refunds : List JValue) :
    getKey (cancelledFields resFields payments refunds) "status"
      = some (.str "cancelled") := by
  rw [cancelledFields, getKey_setKey_self]

theorem getKey_cancelledFields_other (resFields : List (String × JValue))
    (payments refunds : List JValue) (f : String)
    (h1 : f ≠ "payment_history") (h2 : f ≠ "status") :
    getKey (cancelledFields resFields payments refunds) f = getKey resFields f := by
  rw [cancelledFields, getKey_setKey_ne _ _ _ _ h2, getKey_setKey_ne _ _ _ _ h1]

/-- The data set produced by a successful cancellation. -/
def cancelledData (dataFields reservations resFields : List (String × JValue))
    (payments refunds : List JValue) (rid : String) : JValue :=
  .obj (setKey dataFields "reservations"
    (.obj (setKey reservations rid (.obj (cancelledFields resFields payments refunds)))))

theorem reservationAt_cancelledData (dataFields reservations resFields : List (String × JValue))
    (payments refunds : List JValue) (rid : String) :
    reservationAt (cancelledData dataFields reservations resFields payments refunds rid) rid
      = some (.obj (cancelledFields resFields payments refunds)) := by
  rw [cancelledData, reservationAt]
  simp only [getKey_setKey_self, getKey_setKey_self]

theorem historyAt_cancelledData (dataFields reservations resFields : List (String × JValue))
    (payments refunds : List JValue) (rid : String) :
    historyAt (cancelledData dataFields reservations resFields payments refunds rid) rid
      = some (payments ++ refunds) := by
  rw [historyAt, reservationAt_cancelledData]
  simp only [getKey_cancelledFields_history]

theorem statusAt_cancelledData (dataFields reservations resFields : List (String × JValue))
    (payments refunds : List JValue) (rid : String) :
    statusAt (cancelledData dataFields reservations resFields payments refunds rid) rid
      = some (.str "cancelled") := by
  rw [statusAt, reservationAt_cancelledData]
  simp only [getKey_cancelledFields_status]

/-! ## Concrete data set for witnesses (the spec's end-to-end scenario) -/

def exampleDataFields : List (String × JValue) :=
  [("reservations", .obj [("4WQ150", .obj
      [("reservation_id", .str "4WQ150"),
       ("user_id", .str "mia_li_3668"),
       ("status", .str "active"),
       ("payment_history", .list
         [.obj [("payment_id", .str "credit_card_1"), ("amount", .int 100)]])])]),
   ("users", .obj [("mia_li_3668", .obj [])])]

def exampleData : JValue := .obj exampleDataFields

def examplePayments : List JValue :=
  [.obj [("payment_id", .str "credit_card_1"), ("amount", .int 100)]]

def exampleRefunds : List JValue :=
  [.obj [("payment_id", .str "credit_card_1"), ("amount", .int (-100))]]

/-! ## Claim C1 -/

/-- C1: on an existing reservation, `CancelReservation.invoke` returns the
JSON serialization of the updated reservation; afterwards that reservation's
`payment_history` is the original history followed by one refund per
original payment (same `payment_id`, negated amount), so it has twice its
pre-call length and its amounts sum to zero, and its `status` is
`"cancelled"`. -/
theorem cancel_existing_doubles_history
    (dataFields reservations resFields : List (String × JValue))
    (payments refunds : List JValue) (rid : String)
    (hres : getKey dataFields "reservations" = some (.obj reservations))
    (hr : getKey reservations rid = some (.obj resFields))
    (hph : getKey resFields "payment_history" = some (.list payments))
    (hrf : refundsOf payments = some refunds) :
    ∃ (resFields2 : List (String × JValue)) (data2 : JValue),
      CancelReservation.invoke (.obj dataFields) rid
          = some (jsonDumps (.obj resFields2), data2)
        ∧ reservationAt data2 rid = some (.obj resFields2)
        ∧ historyAt data2 rid = some (payments ++ refunds)
        ∧ (payments ++ refunds).length = 2 * payments.length
        ∧ statusAt data2 rid = some (.str "cancelled")
        ∧ List.Forall₂
            (fun p r => paymentIdOf r = paymentIdOf p ∧ paymentAmt r = -paymentAmt p)
            payments refunds
        ∧ ((payments ++ refunds).map paymentAmt).sum = 0 := by
  refine ⟨cancelledFields resFields payments refunds,
    cancelledData dataFields reservations resFields payments refunds rid,
    invoke_existing dataFields reservations resFields payments refunds rid hres hr hph hrf,
    reservationAt_cancelledData .., historyAt_cancelledData .., ?_,
    statusAt_cancelledData .., refundsOf_forall₂ payments refunds hrf,
    refundsOf_sum_zero payments refunds hrf⟩
  have := refundsOf_length payments refunds hrf
  simp only [List.length_append]
  omega

/-- Witness for C1 at the spec's `"4WQ150"` scenario. -/
theorem cancel_existing_doubles_history_witness :
    ∃ (resFields2 : List (String × JValue)) (data2 : JValue),
      CancelReservation.invoke exampleData "4WQ150"
          = some (jsonDumps (.obj resFields2), data2)
        ∧ reservationAt data2 "4WQ150" = some (.obj resFields2)
        ∧ historyAt data2 "4WQ150" = some (examplePayments ++ exampleRefunds)
        ∧ (examplePayments ++ exampleRefunds).length = 2 * examplePayments.length
        ∧ statusAt data2 "4WQ150" = some (.str "cancelled")
        ∧ List.Forall₂
            (fun p r => paymentIdOf r = paymentIdOf p ∧ paymentAmt r = -paymentAmt p)
            examplePayments exampleRefunds
        ∧ ((examplePayments ++ exampleRefunds).map paymentAmt).sum = 0 :=
  cancel_existing_doubles_history exampleDataFields
    [("4WQ150", .obj
      [("reservation_id", .str "4WQ150"),
       ("user_id", .str "mia_li_3668"),
       ("status", .str "active"),
       ("payment_history", .list examplePayments)])]
    [("reservation_id", .str "4WQ150"),
     ("user_id", .str "mia_li_3668"),
     ("status", .str "active"),
     ("payment_history", .list examplePayments)]
    examplePayments exampleRefunds "4WQ150" rfl rfl rfl rfl

/-! ## Claim C2 -/

/-- C2: on a `reservation_id` that is not a key of `data["reservations"]`,
`CancelReservation.invoke` returns exactly the string
`"Error: reservation not found"` and the data set is unchanged. -/
theorem cancel_missing_error_unchanged
    (dataFields reservations : List (String × JValue)) (rid : String)
    (hres : getKey dataFields "reservations" = some (.obj reservations))
    (hr : getKey reservations rid = none) :
    CancelReservation.invoke (.obj dataFields) rid
      = some ("Error: reservation not found", .obj dataFields) := by
  simp only [CancelReservation.invoke, hres, hr]

/-- Witness for C2 at the spec's `"ZZZZZZ"` scenario. -/
theorem cancel_missing_error_unchanged_witness :
    CancelReservation.invoke exampleData "ZZZZZZ"
      = some ("Error: reservation not found", exampleData) :=
  cancel_missing_error_unchanged exampleDataFields
    [("4WQ150", .obj
      [("reservation_id", .str "4WQ150"),
       ("user_id", .str "mia_li_3668"),
       ("status", .str "active"),
       ("payment_history", .list examplePayments)])]
    "ZZZZZZ" rfl rfl

/-! ## Claim C10 -/

/-- C10: a successful cancellation mutates only the `payment_history` and
`status` fields of the targeted reservation; every other top-level key of
the data set, every other reservation, and every other field of the
targeted reservation keep their prior values. -/
theorem cancel_frame_only_history_status
    (dataFields reservations resFields : List (String × JValue))
    (payments refunds : List JValue) (rid : String)
    (hres : getKey dataFields "reservations" = some (.obj reservations))
    (hr : getKey reservations rid = some (.obj resFields))
    (hph : getKey resFields "payment_history" = some (.list payments))
    (hrf : refundsOf payments = some refunds) :
    ∃ (ret : String) (data2Fields reservations2 resFields2 : List (String × JValue)),
      CancelReservation.invoke (.obj dataFields) rid = some (ret, .obj data2Fields)
        ∧ getKey data2Fields "reservations" = some (.obj reservations2)
        ∧ (∀ k, k ≠ "reservations" → getKey data2Fields k = getKey dataFields k)
        ∧ getKey reservations2 rid = some (.obj resFields2)
        ∧ (∀ rid', rid' ≠ rid → getKey reservations2 rid' = getKey reservations rid')
        ∧ getKey resFields2 "payment_history" = some (.list (payments ++ refunds))
        ∧ getKey resFields2 "status" = some (.str "cancelled")
        ∧ (∀ f, f ≠ "payment_history" → f ≠ "status" →
            getKey resFields2 f = getKey resFields f) := by
  refine ⟨jsonDumps (.obj (cancelledFields resFields payments refunds)),
    setKey dataFields "reservations"
      (.obj (setKey reservations rid (.obj (cancelledFields resFields payments refunds)))),
    setKey reservations rid (.obj (cancelledFields resFields payments refunds)),
    cancelledFields resFields payments refunds,
    invoke_existing dataFields reservations resFields payments refunds rid hres hr hph hrf,
    getKey_setKey_self .., fun k hk => getKey_setKey_ne _ _ _ _ hk,
    getKey_setKey_self .., fun rid' hr' => getKey_setKey_ne _ _ _ _ hr',
    getKey_cancelledFields_history .., getKey_cancelledFields_status ..,
    fun f h1 h2 => getKey_cancelledFields_other _ _ _ f h1 h2⟩

/-- Witness for C10 at the spec's `"4WQ150"` scenario. -/
theorem cancel_frame_only_history_status_witness :
    ∃ (ret : String) (data2Fields reservations2 resFields2 : List (String × JValue)),
      CancelReservation.invoke exampleData "4WQ150" = some (ret, .obj data2Fields)
        ∧ getKey data2Fields "reservations" = some (.obj reservations2)
        ∧ (∀ k, k ≠ "reservations" → getKey data2Fields k = getKey exampleDataFields k)
        ∧ getKey reservations2 "4WQ150" = some (.obj resFields2)
        ∧ (∀ rid', rid' ≠ "4WQ150" →
            getKey reservations2 rid'
              = getKey [("4WQ150", JValue.obj
                  [("reservation_id", .str "4WQ150"),
                   ("user_id", .str "mia_li_3668"),
                   ("status", .str "active"),
                   ("payment_history", .list examplePayments)])] rid')
        ∧ getKey resFields2 "payment_history"
            = some (.list (examplePayments ++ exampleRefunds))
        ∧ getKey resFields2 "status" = some (.str "cancelled")
        ∧ (∀ f, f ≠ "payment_history" → f ≠ "status" →
            getKey resFields2 f
              = getKey [("reservation_id", JValue.str "4WQ150"),
                  ("user_id", .str "mia_li_3668"),
                  ("status", .str "active"),
                  ("payment_history", .list examplePayments)] f) :=
  cancel_frame_only_history_status exampleDataFields
    [("4WQ150", .obj
      [("reservation_id", .str "4WQ150"),
       ("user_id", .str "mia_li_3668"),
       ("status", .str "active"),
       ("payment_history", .list examplePayments)])]
    [("reservation_id", .str "4WQ150"),
     ("user_id", .str "mia_li_3668"),
     ("status", .str "active"),
     ("payment_history", .list examplePayments)]
    examplePayments exampleRefunds "4WQ150" rfl rfl rfl rfl

/-! ## Claim C4

The spec asserts idempotence of update tools.  `CancelReservation.invoke`
is not idempotent: a second invocation on the same (now cancelled)
reservation extends `payment_history` again, so the final state after two
invocations differs from the state after one whenever the payment history
is nonempty. -/

/-- The data set left behind by one invocation (dropping the returned string). -/
def dataAfterCancel (d : JValue) (rid : String) : Option JValue :=
  (CancelReservation.invoke d rid).map Prod.snd

/-- C4 counterexample: on the spec's own `"4WQ150"` data set, invoking
`CancelReservation.invoke` twice leaves a different data set than invoking
it once (the payment history has length 4 instead of 2). -/
theorem cancel_twice_ne_once_cex :
    (dataAfterCancel exampleData "4WQ150").bind (fun d => dataAfterCancel d "4WQ150")
      ≠ dataAfterCancel exampleData "4WQ150" := by
  intro h
  have h1 : ((dataAfterCancel exampleData "4WQ150").bind
        (fun d => dataAfterCancel d "4WQ150")).bind
      (fun d => (historyAt d "4WQ150").map List.length) = some 4 := rfl
  have h2 : (dataAfterCancel exampleData "4WQ150").bind
      (fun d => (historyAt d "4WQ150").map List.length) = some 2 := rfl
  rw [h, h2] at h1
  simp at h1

/-- C4 amended: a second invocation with the same argument succeeds again
and appends a second round of refunds: the final `payment_history` has four
times its original length (its amounts still sum to zero) and `status` is
still `"cancelled"`, and — whenever the original payment history is
nonempty — the data set after two invocations differs from the data set
after one. -/
theorem cancel_twice_quadruples_history
    (dataFields reservations resFields : List (String × JValue))
    (payments refunds : List JValue) (rid : String)
    (hres : getKey dataFields "reservations" = some (.obj reservations))
    (hr : getKey reservations rid = some (.obj resFields))
    (hph : getKey resFields "payment_history" = some (.list payments))
    (hrf : refundsOf payments = some refunds)
    (hne : payments ≠ []) :
    ∃ (r1 r2 : String) (d1 d2 : JValue) (hist2 : List JValue),
      CancelReservation.invoke (.obj dataFields) rid = some (r1, d1)
        ∧ CancelReservation.invoke d1 rid = some (r2, d2)
        ∧ historyAt d1 rid = some (payments ++ refunds)
        ∧ historyAt d2 rid = some hist2
        ∧ hist2.length = 4 * payments.length
        ∧ statusAt d2 rid = some (.str "cancelled")
        ∧ (hist2.map paymentAmt).sum = 0
        ∧ d2 ≠ d1 := by
  obtain ⟨refunds2, hrf2⟩ :=
    refundsOf_of_shapes refunds (refundsOf_shape payments refunds hrf)
  have happ : refundsOf (payments ++ refunds) = some (refunds ++ refunds2) :=
    refundsOf_append payments refunds refunds refunds2 hrf hrf2
  have hlen1 := refundsOf_length payments refunds hrf
  have hlen2 := refundsOf_length refunds refunds2 hrf2
  have hinv1 := invoke_existing dataFields reservations resFields payments refunds rid
    hres hr hph hrf
  set rm2 := setKey reservations rid (.obj (cancelledFields resFields payments refunds))
    with hrm2
  have hinv2 := invoke_existing (setKey dataFields "reservations" (.obj rm2)) rm2
    (cancelledFields resFields payments refunds) (payments ++ refunds) (refunds ++ refunds2)
    rid (getKey_setKey_self ..) (getKey_setKey_self ..)
    (getKey_cancelledFields_history ..) happ
  refine ⟨jsonDumps (.obj (cancelledFields resFields payments refunds)),
    jsonDumps (.obj (cancelledFields (cancelledFields resFields payments refunds)
      (payments ++ refunds) (refunds ++ refunds2))),
    cancelledData dataFields reservations resFields payments refunds rid,
    cancelledData (setKey dataFields "reservations" (.obj rm2)) rm2
      (cancelledFields resFields payments refunds) (payments ++ refunds)
      (refunds ++ refunds2) rid,
    (payments ++ refunds) ++ (refunds ++ refunds2),
    hinv1, hinv2, historyAt_cancelledData .., historyAt_cancelledData ..,
    by simp only [List.length_append]; omega,
    statusAt_cancelledData ..,
    refundsOf_sum_zero (payments ++ refunds) (refunds ++ refunds2) happ, ?_⟩
  intro heq
  have e1 : historyAt (cancelledData dataFields reservations resFields payments refunds rid)
      rid = some (payments ++ refunds) := historyAt_cancelledData ..
  have e2 : historyAt (cancelledData (setKey dataFields "reservations" (.obj rm2)) rm2
      (cancelledFields resFields payments refunds) (payments ++ refunds)
      (refunds ++ refunds2) rid) rid
      = some ((payments ++ refunds) ++ (refunds ++ refunds2)) := historyAt_cancelledData ..
  rw [heq, e1, Option.some_inj] at e2
  have := congrArg List.length e2
  simp only [List.length_append] at this
  have hpos : 0 < payments.length := List.length_pos.mpr hne
  omega

/-- Witness for the amended C4 at the spec's `"4WQ150"` scenario. -/
theorem cancel_twice_quadruples_history_witness :
    ∃ (r1 r2 : String) (d1 d2 : JValue) (hist2 : List JValue),
      CancelReservation.invoke exampleData "4WQ150" = some (r1, d1)
        ∧ CancelReservation.invoke d1 "4WQ150" = some (r2, d2)
        ∧ historyAt d1 "4WQ150" = some (examplePayments ++ exampleRefunds)
        ∧ historyAt d2 "4WQ150" = some hist2
        ∧ hist2.length = 4 * examplePayments.length
        ∧ statusAt d2 "4WQ150" = some (.str "cancelled")
        ∧ (hist2.map paymentAmt).sum = 0
        ∧ d2 ≠ d1 :=
  cancel_twice_quadruples_history exampleDataFields
    [("4WQ150", .obj
      [("reservation_id", .str "4WQ150"),
       ("user_id", .str "mia_li_3668"),
       ("status", .str "active"),
       ("payment_history", .list examplePayments)])]
    [("reservation_id", .str "4WQ150"),
     ("user_id", .str "mia_li_3668"),
     ("status", .str "active"),
     ("payment_history", .list examplePayments)]
    examplePayments exampleRefunds "4WQ150" rfl rfl rfl rfl (by simp [examplePayments])

/-! ## `_collect_diffs` (`tau_bench/agents/fastworkflow_adapter.py`)

A diff record is one of the dictionaries the Python code appends:
either `{"path", "agent", "gt"}` (mismatched or missing values, rendered
with `str`) or `{"path", "agent_len", "gt_len"}` (list length mismatch). -/

inductive Diff where
  | vals (path agent gt : String) : Diff
  | lens (path : String) (agentLen gtLen : Nat) : Diff
deriving DecidableEq, Repr

/-- `type(x)` up to identity of the Python type object: two values compare
type-equal exactly when they bear the same constructor (`bool` and `int`
are distinct types in Python even though `True == 1`). -/
def tagOf : JValue → Nat
  | .null => 0
  | .bool _ => 1
  | .int _ => 2
  | .str _ => 3
  | .list _ => 4
  | .obj _ => 5

/-- `repr` of a Python string: single-quoted with backslash and quote
escaped (the ASCII fragment of CPython's rendering, which is all the
airline data exercises). -/
def pyStrRepr (s : String) : String :=
  "'" ++ String.join (s.toList.map fun c =>
    if c = '\\' then "\\\\"
    else if c = '\'' then "\\'"
    else String.singleton c) ++ "'"

mutual

/-- Python `repr` on an embedded value (ASCII fragment). -/
def pyRepr : JValue → String
  | .null => "None"
  | .bool b => if b then "True" else "False"
  | .int n => toString n
  | .str s => pyStrRepr s
  | .list xs => "[" ++ pyReprList xs ++ "]"
  | .obj fs => "\x7b" ++ pyReprFields fs ++ "\x7d"

def pyReprList : List JValue → String
  | [] => ""
  | [x] => pyRepr x
  | x :: xs => pyRepr x ++ ", " ++ pyReprList xs

def pyReprFields : List (String × JValue) → String
  | [] => ""
  | [(k, v)] => pyStrRepr k ++ ": " ++ pyRepr v
  | (k, v) :: fs => pyStrRepr k ++ ": " ++ pyRepr v ++ ", " ++ pyReprFields fs

end

/-- Python `str(x)` as `_collect_diffs` uses it: the identity on strings,
`repr` on containers and the usual renderings on scalars. -/
def pyStr : JValue → String
  | .str s => s
  | v => pyRepr v

/-! Sizes used as the termination measure of the diff recursion. -/

mutual

def jsize : JValue → Nat
  | .null => 1
  | .bool _ => 1
  | .int _ => 1
  | .str _ => 1
  | .list xs => 1 + jsizeList xs
  | .obj fs => 1 + jsizeFields fs

def jsizeList : List JValue → Nat
  | [] => 0
  | x :: xs => 1 + jsize x + jsizeList xs

def jsizeFields : List (String × JValue) → Nat
  | [] => 0
  | (_, v) :: fs => 1 + jsize v + jsizeFields fs

end

def pairsSize : List (JValue × JValue) → Nat
  | [] => 0
  | (a, g) :: rest => 1 + jsize a + jsize g + pairsSize rest

theorem jsize_pos (v : JValue) : 1 ≤ jsize v := by
  cases v <;> simp [jsize]

theorem getKey_jsize_lt (fs : List (String × JValue)) (k : String) (v : JValue)
    (h : getKey fs k = some v) : jsize v < jsizeFields fs := by
  induction fs with
  | nil => simp [getKey] at h
  | cons p rest ih =>
    obtain ⟨k', v'⟩ := p
    simp only [getKey] at h
    by_cases hk : k' = k
    · rw [if_pos hk, Option.some_inj] at h
      subst h
      simp [jsizeFields]
      omega
    · rw [if_neg hk] at h
      have := ih h
      simp [jsizeFields]
      omega

theorem pairsSize_zipWith_le (axs gxs : List JValue) :
    pairsSize (List.zipWith Prod.mk axs gxs) ≤ jsizeList axs + jsizeList gxs := by
  induction axs generalizing gxs with
  | nil => simp [pairsSize]
  | cons a as ih =>
    cases gxs with
    | nil => simp [pairsSize]
    | cons g gs =>
      simp only [List.zipWith_cons_cons, pairsSize, jsizeList]
      have := ih gs
      omega

theorem pairsSize_zip_le (axs gxs : List JValue) :
    pairsSize (axs.zip gxs) ≤ jsizeList axs + jsizeList gxs := by
  simpa [List.zip] using pairsSize_zipWith_le axs gxs

/-- `sorted(set(agent.keys()) | set(gt.keys()))`: the distinct keys of the
two dictionaries in ascending string order. -/
def sortedUnionKeys (afs gfs : List (String × JValue)) : List String :=
  ((afs.map Prod.fst ++ gfs.map Prod.fst).dedup).mergeSort (fun a b => a ≤ b)

mutual

/-- `_collect_diffs(agent, gt, path, diffs, limit)` in state-passing form:
the returned list is the `diffs` list after the call.  The final catch-all
returns `diffs` untouched; it is unreachable, because values of distinct
constructors were already handled by the `type(agent) != type(gt)` test. -/
def collectDiffs (agent gt : JValue) (path : String) (diffs : List Diff)
    (limit : Nat) : List Diff :=
  if diffs.length ≥ limit then diffs
  else if tagOf agent ≠ tagOf gt then
    diffs ++ [Diff.vals path (pyStr agent) (pyStr gt)]
  else
    match agent, gt with
    | .obj afs, .obj gfs =>
      collectDiffsKeys afs gfs (sortedUnionKeys afs gfs) path diffs limit
    | .list axs, .list gxs =>
      collectDiffsPairs (axs.zip gxs) path 0
        (if axs.length ≠ gxs.length then
          diffs ++ [Diff.lens path axs.length gxs.length]
        else diffs) limit
    | .bool a, .bool b =>
      if a ≠ b then diffs ++ [Diff.vals path (pyStr (.bool a)) (pyStr (.bool b))] else diffs
    | .int a, .int b =>
      if a ≠ b then diffs ++ [Diff.vals path (pyStr (.int a)) (pyStr (.int b))] else diffs
    | .str a, .str b =>
      if a ≠ b then diffs ++ [Diff.vals path (pyStr (.str a)) (pyStr (.str b))] else diffs
    | _, _ => diffs
termination_by (jsize agent + jsize gt, 0)
decreasing_by
· exact Prod.Lex.left _ _ (by simp only [jsize]; omega)
· exact Prod.Lex.left _ _ (by
    have := pairsSize_zip_le axs gxs
    simp only [jsize]
    omega)

/-- The `for k in sorted(keys)` loop of the dictionary branch. -/
def collectDiffsKeys (afs gfs : List (String × JValue)) (keys : List String)
    (path : String) (diffs : List Diff) (limit : Nat) : List Diff :=
  match keys with
  | [] => diffs
  | k :: ks =>
    if diffs.length ≥ limit then diffs
    else
      let np := if path = "" then k else path ++ "." ++ k
      match hA : getKey afs k, hG : getKey gfs k with
      | none, some gv =>
        collectDiffsKeys afs gfs ks path
          (diffs ++ [Diff.vals np "<missing>" (pyStr gv)]) limit
      | some av, none =>
        collectDiffsKeys afs gfs ks path
          (diffs ++ [Diff.vals np (pyStr av) "<missing>"]) limit
      | some av, some gv =>
        collectDiffsKeys afs gfs ks path (collectDiffs av gv np diffs limit) limit
      | none, none => collectDiffsKeys afs gfs ks path diffs limit
termination_by (jsizeFields afs + jsizeFields gfs, keys.length)
decreasing_by
· exact Prod.Lex.right _ (by simp only [List.length_cons]; omega)
· exact Prod.Lex.right _ (by simp only [List.length_cons]; omega)
· exact Prod.Lex.left _ _ (by
    have h1 := getKey_jsize_lt afs k av hA
    have h2 := getKey_jsize_lt gfs k gv hG
    omega)
· exact Prod.Lex.right _ (by simp only [List.length_cons]; omega)
· exact Prod.Lex.right _ (by simp only [List.length_cons]; omega)

/-- The `for i, (av, gv) in enumerate(zip(agent, gt))` loop of the list
branch. -/
def collectDiffsPairs (pairs : List (JValue × JValue)) (path : String) (i : Nat)
    (diffs : List Diff) (limit : Nat) : List Diff :=
  match pairs with
  | [] => diffs
  | (av, gv) :: rest =>
    if diffs.length ≥ limit then diffs
    else
      collectDiffsPairs rest path (i + 1)
        (collectDiffs av gv
          (if path = "" then "[" ++ toString i ++ "]"
           else path ++ "[" ++ toString i ++ "]")
          diffs limit) limit
termination_by (pairsSize pairs, 0)
decreasing_by
· exact Prod.Lex.left _ _ (by simp only [pairsSize]; omega)
· exact Prod.Lex.left _ _ (by simp only [pairsSize]; omega)

end

/-! ### Step equations for the diff recursion -/

theorem collectDiffs_stop {agent gt : JValue} {path : String} {diffs : List Diff}
    {limit : Nat} (h : diffs.length ≥ limit) :
    collectDiffs agent gt path diffs limit = diffs := by
  unfold collectDiffs
  rw [if_pos h]

theorem collectDiffs_tag_ne {agent gt : JValue} {path : String} {diffs : List Diff}
    {limit : Nat} (h : ¬ diffs.length ≥ limit) (ht : tagOf agent ≠ tagOf gt) :
    collectDiffs agent gt path diffs limit
      = diffs ++ [Diff.vals path (pyStr agent) (pyStr gt)] := by
  unfold collectDiffs
  rw [if_neg h, if_pos ht]

theorem collectDiffs_obj {afs gfs : List (String × JValue)} {path : String}
    {diffs : List Diff} {limit : Nat} (h : ¬ diffs.length ≥ limit) :
    collectDiffs (.obj afs) (.obj gfs) path diffs limit
      = collectDiffsKeys afs gfs (sortedUnionKeys afs gfs) path diffs limit := by
  unfold collectDiffs
  rw [if_neg h]
  simp [tagOf]

theorem collectDiffs_list {axs gxs : List JValue} {path : String}
    {diffs : List Diff} {limit : Nat} (h : ¬ diffs.length ≥ limit) :
    collectDiffs (.list axs) (.list gxs) path diffs limit
      = collectDiffsPairs (axs.zip gxs) path 0
          (if axs.length ≠ gxs.length then
            diffs ++ [Diff.lens path axs.length gxs.length]
          else diffs) limit := by
  unfold collectDiffs
  rw [if_neg h]
  simp [tagOf]

theorem collectDiffs_boolEq {a b : Bool} {path : String} {diffs : List Diff} {limit : Nat}
    (h : ¬ diffs.length ≥ limit) :
    collectDiffs (.bool a) (.bool b) path diffs limit
      = if a ≠ b then diffs ++ [Diff.vals path (pyStr (.bool a)) (pyStr (.bool b))]
        else diffs := by
  unfold collectDiffs
  rw [if_neg h]
  simp [tagOf]

theorem collectDiffs_intEq {a b : Int} {path : String} {diffs : List Diff} {limit : Nat}
    (h : ¬ diffs.length ≥ limit) :
    collectDiffs (.int a) (.int b) path diffs limit
      = if a ≠ b then diffs ++ [Diff.vals path (pyStr (.int a)) (pyStr (.int b))]
        else diffs := by
  unfold collectDiffs
  rw [if_neg h]
  simp [tagOf]

theorem collectDiffs_strEq {a b : String} {path : String} {diffs : List Diff} {limit : Nat}
    (h : ¬ diffs.length ≥ limit) :
    collectDiffs (.str a) (.str b) path diffs limit
      = if a ≠ b then diffs ++ [Diff.vals path (pyStr (.str a)) (pyStr (.str b))]
        else diffs := by
  unfold collectDiffs
  rw [if_neg h]
  simp [tagOf]

theorem collectDiffs_nullEq {path : String} {diffs : List Diff} {limit : Nat}
    (h : ¬ diffs.length ≥ limit) :
    collectDiffs .null .null path diffs limit = diffs := by
  unfold collectDiffs
  rw [if_neg h]
  simp [tagOf]

theorem collectDiffsKeys_nil {afs gfs : List (String × JValue)} {path : String}
    {diffs : List Diff} {limit : Nat} :
    collectDiffsKeys afs gfs [] path diffs limit = diffs := by
  unfold collectDiffsKeys
  rfl

theorem collectDiffsKeys_stop {afs gfs : List (String × JValue)} {k : String}
    {ks : List String} {path : String} {diffs : List Diff} {limit : Nat}
    (h : diffs.length ≥ limit) :
    collectDiffsKeys afs gfs (k :: ks) path diffs limit = diffs := by
  rw [collectDiffsKeys.eq_def]
  simp only [if_pos h]

theorem collectDiffsKeys_missing_a {afs gfs : List (String × JValue)} {k : String}
    {ks : List String} {path : String} {diffs : List Diff} {limit : Nat} {gv : JValue}
    (h : ¬ diffs.length ≥ limit) (hA : getKey afs k = none) (hG : getKey gfs k = some gv) :
    collectDiffsKeys afs gfs (k :: ks) path diffs limit
      = collectDiffsKeys afs gfs ks path
          (diffs ++ [Diff.vals (if path = "" then k else path ++ "." ++ k)
            "<missing>" (pyStr gv)]) limit := by
  rw [collectDiffsKeys.eq_def]
  simp only [if_neg h, hA, hG]
  split <;> simp_all

theorem collectDiffsKeys_missing_g {afs gfs : List (String × JValue)} {k : String}
    {ks : List String} {path : String} {diffs : List Diff} {limit : Nat} {av : JValue}
    (h : ¬ diffs.length ≥ limit) (hA : getKey afs k = some av) (hG : getKey gfs k = none) :
    collectDiffsKeys afs gfs (k :: ks) path diffs limit
      = collectDiffsKeys afs gfs ks path
          (diffs ++ [Diff.vals (if path = "" then k else path ++ "." ++ k)
            (pyStr av) "<missing>"]) limit := by
  rw [collectDiffsKeys.eq_def]
  simp only [if_neg h, hA, hG]
  split <;> simp_all

theorem collectDiffsKeys_both {afs gfs : List (String × JValue)} {k : String}
    {ks : List String} {path : String} {diffs : List Diff} {limit : Nat} {av gv : JValue}
    (h : ¬ diffs.length ≥ limit) (hA : getKey afs k = some av) (hG : getKey gfs k = some gv) :
    collectDiffsKeys afs gfs (k :: ks) path diffs limit
      = collectDiffsKeys afs gfs ks path
          (collectDiffs av gv (if path = "" then k else path ++ "." ++ k) diffs limit)
          limit := by
  rw [collectDiffsKeys.eq_def]
  simp only [if_neg h, hA, hG]
  split <;> simp_all

theorem collectDiffsKeys_none {afs gfs : List (String × JValue)} {k : String}
    {ks : List String} {path : String} {diffs : List Diff} {limit : Nat}
    (h : ¬ diffs.length ≥ limit) (hA : getKey afs k = none) (hG : getKey gfs k = none) :
    collectDiffsKeys afs gfs (k :: ks) path diffs limit
      = collectDiffsKeys afs gfs ks path diffs limit := by
  rw [collectDiffsKeys.eq_def]
  simp only [if_neg h, hA, hG]
  split <;> simp_all

theorem collectDiffsPairs_nil {path : String} {i : Nat} {diffs : List Diff} {limit : Nat} :
    collectDiffsPairs [] path i diffs limit = diffs := by
  unfold collectDiffsPairs
  rfl

theorem collectDiffsPairs_stop {pr : JValue × JValue} {rest : List (JValue × JValue)}
    {path : String} {i : Nat} {diffs : List Diff} {limit : Nat}
    (h : diffs.length ≥ limit) :
    collectDiffsPairs (pr :: rest) path i diffs limit = diffs := by
  obtain ⟨av, gv⟩ := pr
  rw [collectDiffsPairs.eq_def]
  simp only [if_pos h]

theorem collectDiffsPairs_cons {av gv : JValue} {rest : List (JValue × JValue)}
    {path : String} {i : Nat} {diffs : List Diff} {limit : Nat}
    (h : ¬ diffs.length ≥ limit) :
    collectDiffsPairs ((av, gv) :: rest) path i diffs limit
      = collectDiffsPairs rest path (i + 1)
          (collectDiffs av gv
            (if path = "" then "[" ++ toString i ++ "]"
             else path ++ "[" ++ toString i ++ "]") diffs limit) limit := by
  rw [collectDiffsPairs.eq_def]
  simp only [if_neg h]


theorem collectDiffs_bound_all :
    (∀ agent gt path diffs limit,
      (collectDiffs agent gt path diffs limit).length ≤ max diffs.length limit)
    ∧ (∀ pairs path i diffs limit,
      (collectDiffsPairs pairs path i diffs limit).length ≤ max diffs.length limit)
    ∧ (∀ afs gfs keys path diffs limit,
      (collectDiffsKeys afs gfs keys path diffs limit).length ≤ max diffs.length limit) := by
  apply collectDiffs.mutual_induct
    (fun agent gt path diffs limit =>
      (collectDiffs agent gt path diffs limit).length ≤ max diffs.length limit)
    (fun pairs path i diffs limit =>
      (collectDiffsPairs pairs path i diffs limit).length ≤ max diffs.length limit)
    (fun afs gfs keys path diffs limit =>
      (collectDiffsKeys afs gfs keys path diffs limit).length ≤ max diffs.length limit)
  case case1 =>
    intro agent gt path diffs limit h
    rw [collectDiffs_stop h]
    omega
  case case2 =>
    intro agent gt path diffs limit h ht
    rw [collectDiffs_tag_ne h ht]
    simp only [List.length_append, List.length_cons, List.length_nil]
    omega
  case case3 =>
    intro path diffs limit h afs gfs ht ih
    rw [collectDiffs_obj h]
    exact ih
  case case4 =>
    intro path diffs limit h axs gxs ht ih
    rw [collectDiffs_list h]
    have hd : (if axs.length ≠ gxs.length then
        diffs ++ [Diff.lens path axs.length gxs.length] else diffs).length
        ≤ max diffs.length limit := by
      split
      · simp only [List.length_append, List.length_cons, List.length_nil]
        omega
      · omega
    exact le_trans ih (max_le hd (le_max_right _ _))
  case case5 =>
    intro path diffs limit h a b hne ht
    rw [collectDiffs_boolEq h, if_pos hne]
    simp only [List.length_append, List.length_cons, List.length_nil]
    omega
  case case6 =>
    intro path diffs limit h a b hne ht
    rw [collectDiffs_boolEq h, if_neg hne]
    omega
  case case7 =>
    intro path diffs limit h a b hne ht
    rw [collectDiffs_intEq h, if_pos hne]
    simp only [List.length_append, List.length_cons, List.length_nil]
    omega
  case case8 =>
    intro path diffs limit h a b hne ht
    rw [collectDiffs_intEq h, if_neg hne]
    omega
  case case9 =>
    intro path diffs limit h a b hne ht
    rw [collectDiffs_strEq h, if_pos hne]
    simp only [List.length_append, List.length_cons, List.length_nil]
    omega
  case case10 =>
    intro path diffs limit h a b hne ht
    rw [collectDiffs_strEq h, if_neg hne]
    omega
  case case11 =>
    intro agent gt path diffs limit h ht hobj hlist hbool hint hstr
    cases agent <;> cases gt <;>
      first
      | (rw [collectDiffs_nullEq h]; omega)
      | exact (hobj _ _ rfl rfl).elim
      | exact (hlist _ _ rfl rfl).elim
      | exact (hbool _ _ rfl rfl).elim
      | exact (hint _ _ rfl rfl).elim
      | exact (hstr _ _ rfl rfl).elim
      | (simp [tagOf] at ht)
  case case12 =>
    intro path i diffs limit
    rw [collectDiffsPairs_nil]
    omega
  case case13 =>
    intro path i diffs limit a g rest h
    rw [collectDiffsPairs_stop h]
    omega
  case case14 =>
    intro path i diffs limit a g rest h ihv ihr
    rw [collectDiffsPairs_cons h]
    exact le_trans ihr (max_le ihv (le_max_right _ _))
  case case15 =>
    intro afs gfs path diffs limit
    rw [collectDiffsKeys_nil]
    omega
  case case16 =>
    intro afs gfs path diffs limit k ks h
    rw [collectDiffsKeys_stop h]
    omega
  case case17 =>
    intro afs gfs path diffs limit k ks h np gv hA hG ih
    rw [collectDiffsKeys_missing_a h hA hG]
    refine le_trans ih (max_le ?_ (le_max_right _ _))
    simp only [List.length_append, List.length_cons, List.length_nil]
    omega
  case case18 =>
    intro afs gfs path diffs limit k ks h np av hA hG ih
    rw [collectDiffsKeys_missing_g h hA hG]
    refine le_trans ih (max_le ?_ (le_max_right _ _))
    simp only [List.length_append, List.length_cons, List.length_nil]
    omega
  case case19 =>
    intro afs gfs path diffs limit k ks h np av gv hA hG ihv ihv2 ih
    rw [collectDiffsKeys_both h hA hG]
    exact le_trans ih (max_le ihv (le_max_right _ _))
  case case20 =>
    intro afs gfs path diffs limit k ks h hA hG ih
    rw [collectDiffsKeys_none h hA hG]
    exact ih



theorem mem_zip_self {l : List JValue} {pr : JValue × JValue} (h : pr ∈ l.zip l) :
    pr.1 = pr.2 := by
  induction l with
  | nil => simp [List.zip] at h
  | cons x xs ih =>
    rw [List.zip_cons_cons] at h
    rcases List.mem_cons.mp h with h | h
    · subst h; rfl
    · exact ih h

theorem collectDiffs_self_all :
    (∀ agent gt path diffs limit, agent = gt →
      collectDiffs agent gt path diffs limit = diffs)
    ∧ (∀ pairs path i diffs limit, (∀ pr ∈ pairs, pr.1 = pr.2) →
      collectDiffsPairs pairs path i diffs limit = diffs)
    ∧ (∀ afs gfs keys path diffs limit, afs = gfs →
      collectDiffsKeys afs gfs keys path diffs limit = diffs) := by
  apply collectDiffs.mutual_induct
    (fun agent gt path diffs limit =>
      agent = gt → collectDiffs agent gt path diffs limit = diffs)
    (fun pairs path i diffs limit =>
      (∀ pr ∈ pairs, pr.1 = pr.2) → collectDiffsPairs pairs path i diffs limit = diffs)
    (fun afs gfs keys path diffs limit =>
      afs = gfs → collectDiffsKeys afs gfs keys path diffs limit = diffs)
  case case1 =>
    intro agent gt path diffs limit h heq
    exact collectDiffs_stop h
  case case2 =>
    intro agent gt path diffs limit h ht heq
    subst heq
    exact absurd rfl ht
  case case3 =>
    intro path diffs limit h afs gfs ht ih heq
    rw [collectDiffs_obj h]
    injection heq with h'
    exact ih h'
  case case4 =>
    intro path diffs limit h axs gxs ht ih heq
    injection heq with h'
    subst h'
    simp only [dite_eq_ite] at ih
    rw [collectDiffs_list h]
    rw [if_neg (show ¬axs.length ≠ axs.length by omega)] at ih ⊢
    exact ih (fun pr hpr => mem_zip_self hpr)
  case case5 =>
    intro path diffs limit h a b hne ht heq
    injection heq with h'
    exact absurd h' hne
  case case6 =>
    intro path diffs limit h a b hne ht heq
    rw [collectDiffs_boolEq h, if_neg hne]
  case case7 =>
    intro path diffs limit h a b hne ht heq
    injection heq with h'
    exact absurd h' hne
  case case8 =>
    intro path diffs limit h a b hne ht heq
    rw [collectDiffs_intEq h, if_neg hne]
  case case9 =>
    intro path diffs limit h a b hne ht heq
    injection heq with h'
    exact absurd h' hne
  case case10 =>
    intro path diffs limit h a b hne ht heq
    rw [collectDiffs_strEq h, if_neg hne]
  case case11 =>
    intro agent gt path diffs limit h ht hobj hlist hbool hint hstr heq
    subst heq
    cases agent <;>
      first
      | (rw [collectDiffs_nullEq h])
      | exact (hobj _ _ rfl rfl).elim
      | exact (hlist _ _ rfl rfl).elim
      | exact (hbool _ _ rfl rfl).elim
      | exact (hint _ _ rfl rfl).elim
      | exact (hstr _ _ rfl rfl).elim
  case case12 =>
    intro path i diffs limit hall
    exact collectDiffsPairs_nil
  case case13 =>
    intro path i diffs limit a g rest h hall
    exact collectDiffsPairs_stop h
  case case14 =>
    intro path i diffs limit a g rest h ihv ihr hall
    have hag : a = g := hall (a, g) (by simp)
    simp only [dite_eq_ite] at ihv ihr
    rw [collectDiffsPairs_cons h, ihv hag]
    rw [ihv hag] at ihr
    exact ihr (fun pr hpr => hall pr (by simp [hpr]))
  case case15 =>
    intro afs gfs path diffs limit heq
    exact collectDiffsKeys_nil
  case case16 =>
    intro afs gfs path diffs limit k ks h heq
    exact collectDiffsKeys_stop h
  case case17 =>
    intro afs gfs path diffs limit k ks h np gv hA hG ih heq
    subst heq
    rw [hA] at hG
    simp at hG
  case case18 =>
    intro afs gfs path diffs limit k ks h np av hA hG ih heq
    subst heq
    rw [hA] at hG
    simp at hG
  case case19 =>
    intro afs gfs path diffs limit k ks h np av gv hA hG ihv ihv2 ih heq
    subst heq
    have hag : av = gv := by
      rw [hA] at hG
      exact Option.some_inj.mp hG
    rw [show np = (if path = "" then k else path ++ "." ++ k) from rfl] at ihv
    rw [collectDiffsKeys_both h hA hG, ihv hag]
    rw [show np = (if path = "" then k else path ++ "." ++ k) from rfl, ihv hag] at ih
    exact ih rfl
  case case20 =>
    intro afs gfs path diffs limit k ks h hA hG ih heq
    rw [collectDiffsKeys_none h hA hG]
    exact ih heq



theorem getKey_isSome_mem {fs : List (String × JValue)} {k : String} {v : JValue}
    (h : getKey fs k = some v) : k ∈ fs.map Prod.fst := by
  induction fs with
  | nil => simp [getKey] at h
  | cons p rest ih =>
    obtain ⟨k', v'⟩ := p
    simp only [getKey] at h
    by_cases hk : k' = k
    · simp [hk]
    · rw [if_neg hk] at h
      simp [ih h]

theorem mem_sortedUnionKeys {afs gfs : List (String × JValue)} {k : String}
    (h : k ∈ afs.map Prod.fst ∨ k ∈ gfs.map Prod.fst) :
    k ∈ sortedUnionKeys afs gfs := by
  unfold sortedUnionKeys
  have hm : k ∈ (afs.map Prod.fst ++ gfs.map Prod.fst).dedup :=
    List.mem_dedup.mpr (List.mem_append.mpr h)
  exact ((List.mergeSort_perm _ _).mem_iff).mpr hm

theorem nodup_sortedUnionKeys (afs gfs : List (String × JValue)) :
    (sortedUnionKeys afs gfs).Nodup := by
  unfold sortedUnionKeys
  exact ((List.mergeSort_perm _ _).nodup_iff).mpr (List.nodup_dedup _)

theorem collectDiffsKeys_stop_any {afs gfs : List (String × JValue)} {ks : List String}
    {path : String} {diffs : List Diff} {limit : Nat} (h : diffs.length ≥ limit) :
    collectDiffsKeys afs gfs ks path diffs limit = diffs := by
  cases ks with
  | nil => exact collectDiffsKeys_nil
  | cons k ks => exact collectDiffsKeys_stop h

/-- Keys whose values agree on both sides contribute nothing. -/
theorem collectDiffsKeys_eq_id {afs gfs : List (String × JValue)} {ks : List String}
    {path : String} {limit : Nat}
    (hsame : ∀ k ∈ ks, getKey afs k = getKey gfs k) :
    ∀ diffs, collectDiffsKeys afs gfs ks path diffs limit = diffs := by
  induction ks with
  | nil => intro diffs; exact collectDiffsKeys_nil
  | cons k ks ih =>
    intro diffs
    by_cases hl : diffs.length ≥ limit
    · exact collectDiffsKeys_stop hl
    · have hk := hsame k (by simp)
      cases hA : getKey afs k with
      | none =>
        have hG : getKey gfs k = none := by rw [← hk, hA]
        rw [collectDiffsKeys_none hl hA hG]
        exact ih (fun k' hk' => hsame k' (by simp [hk'])) diffs
      | some v =>
        have hG : getKey gfs k = some v := by rw [← hk, hA]
        rw [collectDiffsKeys_both hl hA hG,
          collectDiffs_self_all.1 v v _ diffs limit rfl]
        exact ih (fun k' hk' => hsame k' (by simp [hk'])) diffs

theorem collectDiffsKeys_append {afs gfs : List (String × JValue)} {xs ys : List String}
    {path : String} {limit : Nat} :
    ∀ diffs, collectDiffsKeys afs gfs (xs ++ ys) path diffs limit
      = collectDiffsKeys afs gfs ys path (collectDiffsKeys afs gfs xs path diffs limit)
          limit := by
  induction xs with
  | nil => intro diffs; rw [List.nil_append, collectDiffsKeys_nil]
  | cons k xs ih =>
    intro diffs
    by_cases hl : diffs.length ≥ limit
    · rw [collectDiffsKeys_stop hl, List.cons_append, collectDiffsKeys_stop hl,
        collectDiffsKeys_stop_any hl]
    · rw [List.cons_append]
      cases hA : getKey afs k with
      | none =>
        cases hG : getKey gfs k with
        | none =>
          rw [collectDiffsKeys_none hl hA hG, collectDiffsKeys_none hl hA hG, ih]
        | some gv =>
          rw [collectDiffsKeys_missing_a hl hA hG, collectDiffsKeys_missing_a hl hA hG, ih]
      | some av =>
        cases hG : getKey gfs k with
        | none =>
          rw [collectDiffsKeys_missing_g hl hA hG, collectDiffsKeys_missing_g hl hA hG, ih]
        | some gv =>
          rw [collectDiffsKeys_both hl hA hG, collectDiffsKeys_both hl hA hG, ih]

/-- `OneLeafAt p a g d`: starting at path argument `p`, the two structures
are identical except at exactly one leaf, reached through any chain of
dictionary keys (dot path steps) and list indices (bracket path steps);
the leaf is either two distinct scalars of the same Python type or two
values of different Python types (where the recursion stops with one
record), and `d` is the record it produces. -/
inductive OneLeafAt : String → JValue → JValue → Diff → Prop where
  | leaf {p : String} {a g : JValue}
      (hscalar : tagOf a ≤ 3) (htag : tagOf a = tagOf g) (hne : a ≠ g) :
      OneLeafAt p a g (.vals p (pyStr a) (pyStr g))
  | leafTag {p : String} {a g : JValue} (htag : tagOf a ≠ tagOf g) :
      OneLeafAt p a g (.vals p (pyStr a) (pyStr g))
  | objStep {p : String} {afs gfs : List (String × JValue)} {k : String}
      {av gv : JValue} {d : Diff}
      (hA : getKey afs k = some av) (hG : getKey gfs k = some gv)
      (hsame : ∀ k', k' ≠ k → getKey afs k' = getKey gfs k')
      (hrec : OneLeafAt (if p = "" then k else p ++ "." ++ k) av gv d) :
      OneLeafAt p (.obj afs) (.obj gfs) d
  | listStep {p : String} {axs gxs : List JValue} {i : Nat}
      {av gv : JValue} {d : Diff}
      (hlen : axs.length = gxs.length)
      (hav : axs[i]? = some av) (hgv : gxs[i]? = some gv)
      (hsame : ∀ j, j ≠ i → axs[j]? = gxs[j]?)
      (hrec : OneLeafAt (if p = "" then "[" ++ toString i ++ "]"
                         else p ++ "[" ++ toString i ++ "]") av gv d) :
      OneLeafAt p (.list axs) (.list gxs) d

/-- The element loop on two equally long lists that agree everywhere but at
index `i` (counted from loop counter `j`) appends exactly the one record
the differing elements produce. -/
theorem collectDiffsPairs_oneDiff {p : String} {limit : Nat} {d : Diff}
    (hlim : 0 < limit) :
    ∀ (axs gxs : List JValue) (i j : Nat) (av gv : JValue),
      axs.length = gxs.length →
      axs[i]? = some av → gxs[i]? = some gv →
      (∀ k, k ≠ i → axs[k]? = gxs[k]?) →
      collectDiffs av gv
        (if p = "" then "[" ++ toString (j + i) ++ "]"
         else p ++ "[" ++ toString (j + i) ++ "]") [] limit = [d] →
      collectDiffsPairs (axs.zip gxs) p j [] limit = [d] := by
  intro axs
  induction axs with
  | nil =>
    intro gxs i j av gv hlen hav hgv hsame hrec
    simp at hav
  | cons x axs ih =>
    intro gxs i j av gv hlen hav hgv hsame hrec
    cases gxs with
    | nil => simp at hlen
    | cons y gxs =>
      have hl : ¬ ([] : List Diff).length ≥ limit := by simp; omega
      cases i with
      | zero =>
        have hx : x = av := by simpa using hav
        have hy : y = gv := by simpa using hgv
        subst hx
        subst hy
        have htail : axs = gxs := by
          apply List.ext_getElem?
          intro k
          simpa using hsame (k + 1) (by omega)
        subst htail
        rw [List.zip_cons_cons, collectDiffsPairs_cons hl]
        rw [Nat.add_zero] at hrec
        rw [hrec]
        exact collectDiffs_self_all.2.1 (axs.zip axs) p (j + 1) [d] limit
          (fun pr hpr => mem_zip_self hpr)
      | succ i' =>
        have hxy : x = y := by simpa using hsame 0 (by omega)
        subst hxy
        rw [List.zip_cons_cons, collectDiffsPairs_cons hl,
          collectDiffs_self_all.1 x x _ [] limit rfl]
        apply ih gxs i' (j + 1) av gv
        · simpa using hlen
        · simpa using hav
        · simpa using hgv
        · intro k hk
          simpa using hsame (k + 1) (by omega)
        · rw [show j + 1 + i' = j + (i' + 1) from by omega]
          exact hrec

theorem collectDiffs_oneLeaf {p : String} {a g : JValue} {d : Diff} {limit : Nat}
    (h : OneLeafAt p a g d) (hlim : 0 < limit) :
    collectDiffs a g p [] limit = [d] := by
  induction h with
  | leaf hscalar htag hne =>
    rename_i p a g
    have hl : ¬ ([] : List Diff).length ≥ limit := by simp; omega
    cases a <;> cases g <;>
      first
      | exact absurd rfl hne
      | (rw [collectDiffs_boolEq hl,
          if_pos (show _ ≠ _ from fun hh => hne (by rw [hh]))]
         rfl)
      | (rw [collectDiffs_intEq hl,
          if_pos (show _ ≠ _ from fun hh => hne (by rw [hh]))]
         rfl)
      | (rw [collectDiffs_strEq hl,
          if_pos (show _ ≠ _ from fun hh => hne (by rw [hh]))]
         rfl)
      | (exfalso; revert hscalar; simp [tagOf]; done)
      | (exfalso; revert htag; simp [tagOf]; done)
  | leafTag htag =>
    rename_i p a g
    have hl : ¬ ([] : List Diff).length ≥ limit := by simp; omega
    rw [collectDiffs_tag_ne hl htag]
    rfl
  | listStep hlen hav hgv hsame hrec ih =>
    rename_i p axs gxs i av gv d
    have hl : ¬ ([] : List Diff).length ≥ limit := by simp; omega
    rw [collectDiffs_list hl, if_neg (by omega)]
    apply collectDiffsPairs_oneDiff hlim axs gxs i 0 av gv hlen hav hgv hsame
    rw [show (0 : Nat) + i = i from by omega]
    exact ih
  | objStep hA hG hsame hrec ih =>
    rename_i p afs gfs k av gv d
    have hl : ¬ ([] : List Diff).length ≥ limit := by simp; omega
    rw [collectDiffs_obj hl]
    have hkmem : k ∈ sortedUnionKeys afs gfs :=
      mem_sortedUnionKeys (Or.inl (getKey_isSome_mem hA))
    have hnd : (sortedUnionKeys afs gfs).Nodup := nodup_sortedUnionKeys afs gfs
    obtain ⟨ks₁, ks₂, hks⟩ := List.append_of_mem hkmem
    rw [hks] at hnd
    have hk1 : k ∉ ks₁ := by
      intro hin
      exact (List.disjoint_of_nodup_append hnd) hin (by simp)
    have hk2 : k ∉ ks₂ := by
      have := (List.nodup_append.mp hnd).2.1
      exact (List.nodup_cons.mp this).1
    rw [hks, collectDiffsKeys_append]
    rw [collectDiffsKeys_eq_id
      (fun k' hk' => hsame k' (fun hh => hk1 (hh ▸ hk'))) []]
    rw [collectDiffsKeys_both hl hA hG, ih]
    exact collectDiffsKeys_eq_id
      (fun k' hk' => hsame k' (fun hh => hk2 (hh ▸ hk'))) [d]



/-! ## Claim C3 -/

/-- C3: `_collect_diffs` appends nothing when the two structures are
identical (for any starting `diffs` list, hence in particular for an empty
one and a positive limit), and on two structures that differ in exactly
one leaf — reached through any chain of dictionary keys and list indices,
the leaf either two distinct same-type scalars or two type-differing
values — it appends exactly one record carrying the dot/bracket path of
that leaf and the two mismatched values. -/
theorem collectDiffs_identical_and_oneLeaf :
    (∀ (v : JValue) (path : String) (diffs : List Diff) (limit : Nat),
      collectDiffs v v path diffs limit = diffs)
    ∧ (∀ (p : String) (a g : JValue) (d : Diff) (limit : Nat),
      OneLeafAt p a g d → 0 < limit → collectDiffs a g p [] limit = [d]) :=
  ⟨fun v path diffs limit => collectDiffs_self_all.1 v v path diffs limit rfl,
   fun _ _ _ _ _ h hlim => collectDiffs_oneLeaf h hlim⟩

/-- Witness for C3: two payment histories differing only in the `amount`
of the second payment, producing the bracket path
`payment_history[1].amount`. -/
theorem collectDiffs_identical_and_oneLeaf_witness :
    collectDiffs
        (.obj [("payment_history", .list
          [.obj [("payment_id", .str "gift_card_1"), ("amount", .int 50)],
           .obj [("payment_id", .str "credit_card_1"), ("amount", .int 100)]])])
        (.obj [("payment_history", .list
          [.obj [("payment_id", .str "gift_card_1"), ("amount", .int 50)],
           .obj [("payment_id", .str "credit_card_1"), ("amount", .int 200)]])])
        "" [] 50
      = [Diff.vals "payment_history[1].amount" (pyStr (.int 100)) (pyStr (.int 200))] :=
  collectDiffs_identical_and_oneLeaf.2 "" _ _ _ 50
    (@OneLeafAt.objStep ""
      [("payment_history", .list
        [.obj [("payment_id", .str "gift_card_1"), ("amount", .int 50)],
         .obj [("payment_id", .str "credit_card_1"), ("amount", .int 100)]])]
      [("payment_history", .list
        [.obj [("payment_id", .str "gift_card_1"), ("amount", .int 50)],
         .obj [("payment_id", .str "credit_card_1"), ("amount", .int 200)]])]
      "payment_history"
      (.list [.obj [("payment_id", .str "gift_card_1"), ("amount", .int 50)],
              .obj [("payment_id", .str "credit_card_1"), ("amount", .int 100)]])
      (.list [.obj [("payment_id", .str "gift_card_1"), ("amount", .int 50)],
              .obj [("payment_id", .str "credit_card_1"), ("amount", .int 200)]])
      (Diff.vals "payment_history[1].amount" (pyStr (.int 100)) (pyStr (.int 200)))
      rfl rfl
      (fun k' hk' => by simp [getKey, Ne.symm hk'])
      (@OneLeafAt.listStep "payment_history"
        [.obj [("payment_id", .str "gift_card_1"), ("amount", .int 50)],
         .obj [("payment_id", .str "credit_card_1"), ("amount", .int 100)]]
        [.obj [("payment_id", .str "gift_card_1"), ("amount", .int 50)],
         .obj [("payment_id", .str "credit_card_1"), ("amount", .int 200)]]
        1
        (.obj [("payment_id", .str "credit_card_1"), ("amount", .int 100)])
        (.obj [("payment_id", .str "credit_card_1"), ("amount", .int 200)])
        (Diff.vals "payment_history[1].amount" (pyStr (.int 100)) (pyStr (.int 200)))
        rfl rfl rfl
        (fun j hj => match j, hj with
          | 0, _ => rfl
          | 1, hj => absurd rfl hj
          | _ + 2, _ => rfl)
        (@OneLeafAt.objStep "payment_history[1]"
          [("payment_id", .str "credit_card_1"), ("amount", .int 100)]
          [("payment_id", .str "credit_card_1"), ("amount", .int 200)]
          "amount" (.int 100) (.int 200)
          (Diff.vals "payment_history[1].amount" (pyStr (.int 100)) (pyStr (.int 200)))
          rfl rfl
          (fun k' hk' => by
            by_cases hpi : "payment_id" = k' <;> simp [getKey, hpi, Ne.symm hk'])
          (OneLeafAt.leaf (by decide) rfl (by simp)))))
    (by omega)

/-! ## Claim C8 -/

/-- C8: `_collect_diffs` never grows the diffs list beyond the record cap:
the final length is at most `max diffs.length limit`, and in particular at
most `limit` when starting from an empty list. -/
theorem collectDiffs_length_bounded :
    (∀ (agent gt : JValue) (path : String) (diffs : List Diff) (limit : Nat),
      (collectDiffs agent gt path diffs limit).length ≤ max diffs.length limit)
    ∧ (∀ (agent gt : JValue) (path : String) (limit : Nat),
      (collectDiffs agent gt path [] limit).length ≤ limit) :=
  ⟨collectDiffs_bound_all.1,
   fun agent gt path limit => by
     have h := collectDiffs_bound_all.1 agent gt path [] limit
     simpa using h⟩

/-! ## Claim C9 -/

theorem zip_take_length (axs gxs : List JValue) :
    axs.zip (gxs.take axs.length) = axs.zip gxs := by
  induction axs generalizing gxs with
  | nil => simp [List.zip]
  | cons a as ih =>
    cases gxs with
    | nil => simp
    | cons g gs =>
      simp only [List.length_cons, List.take_succ_cons, List.zip_cons_cons]
      rw [ih gs]

/-- C9: comparing two lists of lengths `n < m` (below the record cap)
appends exactly one length-mismatch record `(path, n, m)` and then compares
only the first `n` index pairs; the trailing elements of the longer list
never produce records — replacing them changes nothing. -/
theorem collectDiffs_list_length_mismatch
    (axs gxs : List JValue) (path : String) (diffs : List Diff) (limit : Nat)
    (hlt : diffs.length < limit) (hlen : axs.length < gxs.length) :
    collectDiffs (.list axs) (.list gxs) path diffs limit
        = collectDiffsPairs (axs.zip (gxs.take axs.length)) path 0
            (diffs ++ [Diff.lens path axs.length gxs.length]) limit
      ∧ ∀ gxs2 : List JValue, gxs2.length = gxs.length →
          gxs2.take axs.length = gxs.take axs.length →
          collectDiffs (.list axs) (.list gxs2) path diffs limit
            = collectDiffs (.list axs) (.list gxs) path diffs limit := by
  have hl : ¬ diffs.length ≥ limit := by omega
  constructor
  · rw [collectDiffs_list hl, if_pos (by omega), zip_take_length]
  · intro gxs2 hlen2 htake
    rw [collectDiffs_list hl, collectDiffs_list hl,
      if_pos (show axs.length ≠ gxs2.length by omega),
      if_pos (show axs.length ≠ gxs.length by omega), hlen2,
      ← zip_take_length axs gxs2, htake, zip_take_length]

/-- Witness for C9 at `[1]` versus `[1, 2, 3]`. -/
theorem collectDiffs_list_length_mismatch_witness :
    collectDiffs (.list [.int 1]) (.list [.int 1, .int 2, .int 3]) "xs" [] 50
        = collectDiffsPairs ([JValue.int 1].zip ([JValue.int 1, .int 2, .int 3].take 1))
            "xs" 0 ([] ++ [Diff.lens "xs" 1 3]) 50
      ∧ ∀ gxs2 : List JValue, gxs2.length = 3 →
          gxs2.take 1 = [JValue.int 1, .int 2, .int 3].take 1 →
          collectDiffs (.list [.int 1]) (.list gxs2) "xs" [] 50
            = collectDiffs (.list [.int 1]) (.list [.int 1, .int 2, .int 3]) "xs" [] 50 :=
  collectDiffs_list_length_mismatch [.int 1] [.int 1, .int 2, .int 3] "xs" [] 50
    (by decide) (by decide)



/-! ## `_simulate_gt_data` (`tau_bench/agents/fastworkflow_adapter.py`)

The environment pieces it touches (`data_load_func`, `task.actions`,
`terminate_tools`, `tools_map`) are parameters; a tool's `invoke` is
modelled as a function from the data set and keyword arguments to
`Option` of the data set afterwards, `none` standing for a raised
exception (the repository's tools validate before mutating, so a raising
invocation leaves the data unchanged). -/

structure GTAction where
  name : String
  kwargs : List (String × JValue)

structure GTEnv where
  data_load : JValue
  actions : List GTAction
  terminate_tools : List String
  tools_map : String → Option (JValue → List (String × JValue) → Option JValue)

/-- One iteration of the replay loop: skip terminal actions, skip unknown
tools, suppress a raising invocation (`contextlib.suppress(Exception)`). -/
def gtStep (env : GTEnv) (data : JValue) (action : GTAction) : JValue :=
  if action.name ∈ env.terminate_tools then data
  else
    match env.tools_map action.name with
    | none => data
    | some tool =>
      match tool data action.kwargs with
      | some data2 => data2
      | none => data

/-- `_simulate_gt_data`: replay the ground-truth actions in order on a
freshly loaded data set and return the result. -/
def simulateGTData (env : GTEnv) : JValue :=
  env.actions.foldl (gtStep env) env.data_load

/-! ## Claim C7 -/

/-- C7: `_simulate_gt_data` replays the action sequence in order on the
freshly loaded data set and always returns the result; a terminal action,
an action with no tool in the tools map, and an action whose invocation
raises each leave the data untouched, so such an action can be deleted
from the sequence without changing the returned data set — one failing
action never aborts the replay. -/
theorem simulateGTData_spec :
    (∀ env : GTEnv,
      simulateGTData env = env.actions.foldl (gtStep env) env.data_load)
    ∧ (∀ (env : GTEnv) (data : JValue) (a : GTAction),
      a.name ∈ env.terminate_tools → gtStep env data a = data)
    ∧ (∀ (env : GTEnv) (data : JValue) (a : GTAction),
      env.tools_map a.name = none → gtStep env data a = data)
    ∧ (∀ (env : GTEnv) (data : JValue) (a : GTAction) tool,
      env.tools_map a.name = some tool → tool data a.kwargs = none →
      gtStep env data a = data)
    ∧ (∀ (env : GTEnv) (pre : List GTAction) (a : GTAction) (post : List GTAction),
      env.actions = pre ++ a :: post →
      (a.name ∈ env.terminate_tools ∨ env.tools_map a.name = none ∨
        (∃ tool, env.tools_map a.name = some tool ∧
          tool (pre.foldl (gtStep env) env.data_load) a.kwargs = none)) →
      simulateGTData env
        = simulateGTData ⟨env.data_load, pre ++ post,
            env.terminate_tools, env.tools_map⟩) := by
  have hskip : ∀ (env : GTEnv) (data : JValue) (a : GTAction),
      (a.name ∈ env.terminate_tools ∨ env.tools_map a.name = none ∨
        (∃ tool, env.tools_map a.name = some tool ∧ tool data a.kwargs = none)) →
      gtStep env data a = data := by
    intro env data a h
    rcases h with h | h | ⟨tool, h1, h2⟩
    · rw [gtStep, if_pos h]
    · by_cases ht : a.name ∈ env.terminate_tools
      · rw [gtStep, if_pos ht]
      · rw [gtStep, if_neg ht, h]
    · by_cases ht : a.name ∈ env.terminate_tools
      · rw [gtStep, if_pos ht]
      · rw [gtStep, if_neg ht, h1]
        simp [h2]
  refine ⟨fun env => rfl,
    fun env data a h => hskip env data a (Or.inl h),
    fun env data a h => hskip env data a (Or.inr (Or.inl h)),
    fun env data a tool h1 h2 => hskip env data a (Or.inr (Or.inr ⟨tool, h1, h2⟩)),
    fun env pre a post hact h => ?_⟩
  have henv : (⟨env.data_load, pre ++ post, env.terminate_tools, env.tools_map⟩ : GTEnv).tools_map
      = env.tools_map := rfl
  show simulateGTData env = simulateGTData _
  rw [simulateGTData, simulateGTData, hact]
  have hstep : gtStep ⟨env.data_load, pre ++ post, env.terminate_tools, env.tools_map⟩
      = gtStep { env with actions := pre ++ a :: post } := by
    funext d x
    rw [gtStep, gtStep]
  have hgt : gtStep { env with actions := pre ++ a :: post } = gtStep env := by
    funext d x
    rw [gtStep, gtStep]
  simp only [hstep, hgt, List.foldl_append, List.foldl_cons]
  rw [hskip env _ a h]

/-- Witness for C7: deleting a terminal action from a one-action task
leaves the replayed data set unchanged. -/
theorem simulateGTData_spec_witness :
    simulateGTData ⟨JValue.obj [], [⟨"transfer_to_human_agents", []⟩],
        ["transfer_to_human_agents"], fun _ => none⟩
      = simulateGTData ⟨JValue.obj [], [] ++ [],
          ["transfer_to_human_agents"], fun _ => none⟩ :=
  simulateGTData_spec.2.2.2.2
    ⟨JValue.obj [], [⟨"transfer_to_human_agents", []⟩],
      ["transfer_to_human_agents"], fun _ => none⟩
    [] ⟨"transfer_to_human_agents", []⟩ [] rfl (Or.inl (by simp))



/-! ## The bounded interaction loop of `FastWorkflowAgentAdapter.solve`

The two drain helpers read external FastWorkflow queues and step the
external Tau Bench environment; per iteration their observable effect on
the loop state is: a number of items drained from the trace queue, the
named command events appended to `actions_executed`, a number of items
drained from the output queue, and whether the user simulator signalled
`done`.  That per-iteration effect is the `IterEvents` stream below; the
loop skeleton (`for _ in range(max_num_steps)` with the idle counter and
the two break conditions) is modelled verbatim.  The `time.sleep(0.15)`
between iterations has no effect on the state. -/

structure ExecAction where
  name : String
  response_text : String

structure IterEvents where
  traceProcessed : Nat
  traceActions : List ExecAction
  outProcessed : Nat
  outDone : Bool

structure LoopState where
  stepsTaken : Nat
  idleCycles : Nat
  done : Bool
  actionsExecuted : List ExecAction
  iters : Nat

/-- `idle_limit = 150  # increased patience (~22.5s at 0.15s sleep)`. -/
def idleLimit : Nat := 150

/-- The body of `for _ in range(max_num_steps)`: drain both sources,
accumulate steps and actions, update the idle counter, and stop on `done`
or on `idle_cycles >= idle_limit`. -/
def loopIterate (events : Nat → IterEvents) : Nat → LoopState → LoopState
  | 0, s => s
  | fuel + 1, s =>
    let ev := events s.iters
    let progressed := ev.traceProcessed + ev.outProcessed
    let done2 := s.done || ev.outDone
    let idle2 := if progressed = 0 then s.idleCycles + 1 else 0
    let s2 : LoopState :=
      { stepsTaken := s.stepsTaken + progressed
        idleCycles := idle2
        done := done2
        actionsExecuted := s.actionsExecuted ++ ev.traceActions
        iters := s.iters + 1 }
    if done2 || idle2 ≥ idleLimit then s2
    else loopIterate events fuel s2

def initialLoopState : LoopState :=
  { stepsTaken := 0, idleCycles := 0, done := false, actionsExecuted := [], iters := 0 }

/-- Modelled from the spec: `env.calculate_reward()` lives in
`tau_bench/envs/base.py`, which is not under `src/`; the spec keeps the
scoring function external ("delegate numeric reward computation to the
external environment's own scoring function") and its adapter-loop
property fixes the computed reward to `0.0` for a run whose executed
action list is empty.  Beyond that the scorer stays abstract. -/
def calculateRewardM (external : List ExecAction → Rat)
    (actions : List ExecAction) : Rat :=
  if actions.isEmpty then 0 else external actions

structure InfoM where
  steps : Nat
  executed_actions : List ExecAction
  error : Option String

structure SolveResultM where
  reward : Rat
  messages : List (String × String)
  info : InfoM

/-- The value `solve` returns on the non-raising path, as a function of
the final loop state (messages omitted from the claims are kept empty). -/
def solveOutcome (events : Nat → IterEvents) (external : List ExecAction → Rat)
    (maxSteps : Nat) : SolveResultM :=
  let final := loopIterate events maxSteps initialLoopState
  { reward := calculateRewardM external final.actionsExecuted
    messages := []
    info := { steps := final.stepsTaken
              executed_actions := final.actionsExecuted
              error := none } }

/-! ## Claim C5 -/

set_option maxRecDepth 4000 in
/-- C5: if neither queue ever yields an event, the interaction loop with
the default `max_num_steps = 200` stops after exactly 150 iterations (the
idle patience), strictly before the iteration cap, with `steps_taken = 0`
and no executed actions, and the returned result carries reward `0.0` and
an empty executed-actions list. -/
theorem solve_idle_terminates (events : Nat → IterEvents)
    (external : List ExecAction → Rat)
    (hsilent : ∀ i, events i = ⟨0, [], 0, false⟩) :
    (loopIterate events 200 initialLoopState).iters = 150
    ∧ (loopIterate events 200 initialLoopState).idleCycles = idleLimit
    ∧ (loopIterate events 200 initialLoopState).iters < 200
    ∧ (loopIterate events 200 initialLoopState).stepsTaken = 0
    ∧ (loopIterate events 200 initialLoopState).done = false
    ∧ (loopIterate events 200 initialLoopState).actionsExecuted = []
    ∧ (solveOutcome events external 200).reward = 0
    ∧ (solveOutcome events external 200).info.executed_actions = [] := by
  have hev : events = fun _ => ⟨0, [], 0, false⟩ := funext hsilent
  subst hev
  have h150 : (loopIterate (fun _ => ⟨0, [], 0, false⟩) 200 initialLoopState).iters
      = 150 := rfl
  exact ⟨h150, rfl, by rw [h150]; omega, rfl, rfl, rfl, rfl, rfl⟩

/-- Witness for C5: the constantly-silent event stream. -/
theorem solve_idle_terminates_witness :
    (loopIterate (fun _ => ⟨0, [], 0, false⟩) 200 initialLoopState).iters = 150
    ∧ (loopIterate (fun _ => ⟨0, [], 0, false⟩) 200 initialLoopState).idleCycles = idleLimit
    ∧ (loopIterate (fun _ => ⟨0, [], 0, false⟩) 200 initialLoopState).iters < 200
    ∧ (loopIterate (fun _ => ⟨0, [], 0, false⟩) 200 initialLoopState).stepsTaken = 0
    ∧ (loopIterate (fun _ => ⟨0, [], 0, false⟩) 200 initialLoopState).done = false
    ∧ (loopIterate (fun _ => ⟨0, [], 0, false⟩) 200 initialLoopState).actionsExecuted = []
    ∧ (solveOutcome (fun _ => ⟨0, [], 0, false⟩) (fun _ => 1) 200).reward = 0
    ∧ (solveOutcome (fun _ => ⟨0, [], 0, false⟩) (fun _ => 1) 200).info.executed_actions
        = [] :=
  solve_idle_terminates (fun _ => ⟨0, [], 0, false⟩) (fun _ => 1) (fun _ => rfl)

/-! ## Claim C6 -/

/-- `solve`'s top-level `try/except Exception`: the body either produces a
result or raises with a message; the handler turns the exception into a
zero-reward result whose `info` records the message under `"error"` (the
success-only `info` keys are absent there, modelled as `0` / `[]`). -/
def solveCatch (wiki : String) (body : Except String SolveResultM) : SolveResultM :=
  match body with
  | .ok r => r
  | .error e =>
    { reward := 0
      messages := [("system", wiki)]
      info := { steps := 0, executed_actions := [], error := some e } }

/-- C6: `solve` always returns a result — the exception path included —
and on an exception with message `e` the result has reward `0.0` and
records `e` under `info["error"]`. -/
theorem solve_catches_exceptions (wiki : String) :
    (∀ body : Except String SolveResultM, ∃ r : SolveResultM, solveCatch wiki body = r)
    ∧ (∀ e : String,
        solveCatch wiki (.error e)
          = { reward := 0
              messages := [("system", wiki)]
              info := { steps := 0, executed_actions := [], error := some e } }
        ∧ (solveCatch wiki (.error e)).reward = 0
        ∧ (solveCatch wiki (.error e)).info.error = some e) :=
  ⟨fun body => ⟨solveCatch wiki body, rfl⟩, fun e => ⟨rfl, rfl, rfl⟩⟩


end TauBench
